import Mathlib

/-
Shallow embedding of `src/src/vtextedit.cpp` (vnote's VTextEdit widget).

The file models three independent slices of the class:
  * the gutter (line-number area) painting algorithm of
    `VTextEdit::paintLineNumberArea`, for the CodeBlock ("code-block local"),
    Absolute and Relative numbering modes;
  * the image cache operations (`addImage` / `removeImage` / `containsImage` /
    `imageSize` / `clearBlockImages` / `setBlockImageEnabled`);
  * the margin / visibility bookkeeping of `updateLineNumberAreaMargin` and
    `updateLineNumberArea`, and the `cursorBlockWidthUpdated` handler.
Qt blocks form a doubly-traversable ordered sequence; we model a document as a
`List TextBlock` with the block number equal to the list index.
-/

namespace VTextEditSpec

/-- BlockState enumeration from vtextedit.cpp lines 13-20. -/
inductive BlockState
  | Normal
  | CodeBlockStart
  | CodeBlock
  | CodeBlockEnd
  | Comment
deriving DecidableEq, Repr

/-- Line-number modes used by `paintLineNumberArea` (declared in the header;
values None, Absolute, Relative, CodeBlock as used in the cpp). -/
inductive LineNumberType
  | None
  | Absolute
  | Relative
  | CodeBlock
deriving DecidableEq, Repr

/-- The per-block data `paintLineNumberArea` reads from a `QTextBlock`:
`userState` (the syntax-highlighter state tag), `isVisible`, and the height of
`layout->blockBoundingRect(block)`. The block number is the block's index in
the document list. -/
structure TextBlock where
  userState : BlockState
  isVisible : Bool
  height : Int
deriving DecidableEq, Repr

/-- Backward scan of vtextedit.cpp lines 166-174: starting from
`block.previous()` walk backwards until a block with state CodeBlockStart is
found; the C++ then sets `number = block.blockNumber() - startBlock.blockNumber()`,
i.e. the distance to that start block. Here `revBefore` is the list of blocks
before the current one, nearest first (the reversed prefix), and the result is
that distance, or `none` when no CodeBlockStart exists before the block. -/
def distToStart : List TextBlock → Option Nat
  | [] => none
  | b :: bs =>
    if b.userState = BlockState.CodeBlockStart then some 1
    else (distToStart bs).map (· + 1)

/-- Forward paint loop of vtextedit.cpp lines 150-200 (the
`LineNumberType::CodeBlock` branch). `revBefore` holds the blocks before the
current one (nearest first), `rest` the current block and its successors,
`top` the current block's top y-coordinate, `number` the running counter.
Output: the list of `(blockNumber, printed number)` pairs passed to
`painter.drawText`, in paint order. The current block's number is
`revBefore.length`. -/
def paintCBFrom (eventTop eventBtm : Int) :
    List TextBlock → List TextBlock → Int → Int → List (Nat × Int)
  | _, [], _, _ => []
  | revBefore, b :: bs, top, number =>
    if eventBtm < top then []
    else
      let bottom := top + b.height
      let number1 : Int :=
        match b.userState with
        | BlockState.CodeBlockStart => 1
        | BlockState.CodeBlockEnd => 0
        | BlockState.CodeBlock =>
          if number = 0 then
            match distToStart revBefore with
            | some d => (d : Int)
            | none => 0
          else number
        | _ => number
      let painted :=
        if b.userState = BlockState.CodeBlock ∧ b.isVisible = true ∧ eventTop ≤ bottom
        then [(revBefore.length, number1)]
        else []
      let number2 := if b.userState = BlockState.CodeBlock then number1 + 1 else number1
      painted ++ paintCBFrom eventTop eventBtm (b :: revBefore) bs bottom number2

/-- Entry into the CodeBlock-mode paint: painting starts at the first visible
block (`firstVisible`, a block number), with `number = 0` (line 150) and the
first block's top coordinate `top`. -/
def paintCodeBlockMode (blocks : List TextBlock) (firstVisible : Nat)
    (top eventTop eventBtm : Int) : List (Nat × Int) :=
  paintCBFrom eventTop eventBtm (blocks.take firstVisible).reverse
    (blocks.drop firstVisible) top 0

/-- Paint loop of vtextedit.cpp lines 208-250 for the Absolute and Relative
modes. `blockNumber` is the running block number, `cur` is
`textCursor().block().blockNumber()`. Output entries are
`(blockNumber, printed number, bold)` for each `drawText` call; each branch
below is one execution path of the C++ assignment to `number`/`currentLine`:
Relative with `number = blockNumber - curBlockNumber` zero (caret line:
absolute number, bold), negative (negated), or positive; Absolute with
`blockNumber == curBlockNumber` (bold) or not. -/
def paintAbsRelFrom (mode : LineNumberType) (cur eventTop eventBtm : Int) :
    Int → List TextBlock → Int → List (Int × Int × Bool)
  | _, [], _ => []
  | blockNumber, b :: bs, top =>
    if eventBtm < top then []
    else
      let bottom := top + b.height
      let painted :=
        if b.isVisible = true ∧ eventTop ≤ bottom then
          if mode = LineNumberType.Relative then
            if blockNumber - cur = 0 then [(blockNumber, blockNumber + 1, true)]
            else if blockNumber - cur < 0 then [(blockNumber, -(blockNumber - cur), false)]
            else [(blockNumber, blockNumber - cur, false)]
          else if blockNumber = cur then [(blockNumber, blockNumber + 1, true)]
          else [(blockNumber, blockNumber + 1, false)]
        else []
      painted ++ paintAbsRelFrom mode cur eventTop eventBtm (blockNumber + 1) bs bottom

/-- Entry into the Absolute/Relative paint: starts at the first visible block's
number and top coordinate. -/
def paintAbsRelMode (mode : LineNumberType) (cur : Int) (blocks : List TextBlock)
    (firstVisible : Nat) (top eventTop eventBtm : Int) : List (Int × Int × Bool) :=
  paintAbsRelFrom mode cur eventTop eventBtm (firstVisible : Int)
    (blocks.drop firstVisible) top

/-- QSize modelled by width and height; a default-constructed `QSize()` (as
returned by `imageSize` on a miss, line 318) is the invalid size (-1, -1). -/
structure QSize where
  width : Int
  height : Int
deriving DecidableEq, Repr

/-- The null size produced by `QSize()`. -/
def QSize.null : QSize := ⟨-1, -1⟩

/-- QPixmap modelled by the one observation the code makes of it: its size. -/
structure QPixmap where
  size : QSize
deriving DecidableEq, Repr

/-- Modelled from the spec: `VImageResourceManager2` is not under src/; spec
section 4.1 (ImageResourceCache) describes it as a map from unique names to
images, with `addImage` insert-or-replace, `removeImage` remove-if-present,
`contains`, `findImage` returning nothing on a miss, and `clear`. Modelled as
an association list keyed by name. -/
abbrev ImageCache := List (String × QPixmap)

/-- Modelled from the spec: "inserts or replaces the entry for `name`;
silently overwrites". -/
def ImageCache.addImage (c : ImageCache) (name : String) (img : QPixmap) : ImageCache :=
  (name, img) :: c.filter (fun e => ¬(e.1 = name))

/-- Modelled from the spec: "removes the entry if present; no-op otherwise". -/
def ImageCache.removeImage (c : ImageCache) (name : String) : ImageCache :=
  c.filter (fun e => ¬(e.1 = name))

/-- Modelled from the spec: existence check. -/
def ImageCache.contains (c : ImageCache) (name : String) : Bool :=
  c.any (fun e => e.1 = name)

/-- Modelled from the spec: "returns nothing if absent". -/
def ImageCache.findImage (c : ImageCache) (name : String) : Option QPixmap :=
  (c.find? (fun e => e.1 = name)).map (·.2)

/-- Modelled from the spec: "removes all entries". -/
def ImageCache.clear (_c : ImageCache) : ImageCache := []

/-- The slice of VTextEdit state the image-cache operations touch:
`m_blockImageEnabled`, the cache held by `m_imageMgr`, the layout's
block-image flag (set through `getLayout()->setBlockImageEnabled`), and a
counter of `relayout()` calls on the layout (so that "performs a relayout"
is observable). -/
structure VTextEdit where
  m_blockImageEnabled : Bool
  m_imageMgr : ImageCache
  layoutBlockImageEnabled : Bool
  relayoutCount : Nat
deriving DecidableEq, Repr

namespace VTextEdit

/-- State after `init()` (lines 44-61): `m_blockImageEnabled = false`, a fresh
empty image manager, and the layout's flag set from `m_blockImageEnabled`. -/
def init : VTextEdit :=
  { m_blockImageEnabled := false
    m_imageMgr := []
    layoutBlockImageEnabled := false
    relayoutCount := 0 }

/-- `VTextEdit::containsImage`, lines 306-309. -/
def containsImage (e : VTextEdit) (name : String) : Bool :=
  e.m_imageMgr.contains name

/-- `VTextEdit::imageSize`, lines 311-319: the found image's size, else a
default-constructed `QSize()`. -/
def imageSize (e : VTextEdit) (name : String) : QSize :=
  match e.m_imageMgr.findImage name with
  | some img => img.size
  | none => QSize.null

/-- `VTextEdit::addImage`, lines 321-326: inserts only when
`m_blockImageEnabled` is set. -/
def addImage (e : VTextEdit) (name : String) (img : QPixmap) : VTextEdit :=
  if e.m_blockImageEnabled then
    { e with m_imageMgr := e.m_imageMgr.addImage name img }
  else e

/-- `VTextEdit::removeImage`, lines 328-331: unconditional removal. -/
def removeImage (e : VTextEdit) (name : String) : VTextEdit :=
  { e with m_imageMgr := e.m_imageMgr.removeImage name }

/-- `VTextEdit::clearBlockImages`, lines 294-299: clears the manager and asks
the layout for a full relayout. -/
def clearBlockImages (e : VTextEdit) : VTextEdit :=
  { e with
    m_imageMgr := e.m_imageMgr.clear
    relayoutCount := e.relayoutCount + 1 }

/-- `VTextEdit::relayout()`, lines 387-390. -/
def relayout (e : VTextEdit) : VTextEdit :=
  { e with relayoutCount := e.relayoutCount + 1 }

/-- `VTextEdit::setBlockImageEnabled`, lines 333-346: early return when the
flag is unchanged; otherwise store it, propagate it to the layout, and when
disabling call `clearBlockImages()`. -/
def setBlockImageEnabled (e : VTextEdit) (enabled : Bool) : VTextEdit :=
  if e.m_blockImageEnabled = enabled then e
  else
    let e1 := { e with
                m_blockImageEnabled := enabled
                layoutBlockImageEnabled := enabled }
    if ¬enabled then e1.clearBlockImages else e1

end VTextEdit

/-- States of the image-cache slice reachable through the public operations
from the constructed (`init`) state. -/
inductive Reachable : VTextEdit → Prop
  | init : Reachable VTextEdit.init
  | addImage {e : VTextEdit} (name : String) (img : QPixmap) :
      Reachable e → Reachable (e.addImage name img)
  | removeImage {e : VTextEdit} (name : String) :
      Reachable e → Reachable (e.removeImage name)
  | clearBlockImages {e : VTextEdit} :
      Reachable e → Reachable e.clearBlockImages
  | setBlockImageEnabled {e : VTextEdit} (enabled : Bool) :
      Reachable e → Reachable (e.setBlockImageEnabled enabled)
  | relayout {e : VTextEdit} :
      Reachable e → Reachable e.relayout

/-- The 8-unit caret-width floor, vtextedit.cpp line 11. -/
def VIRTUAL_CURSOR_BLOCK_WIDTH : Int := 8

/-- The `cursorBlockWidthUpdated` handler connected in `init()`
(lines 65-71): `setCursorWidth(p_width)` is called exactly when the new width
differs from `cursorWidth()` and exceeds the floor. `some w` models the call
`setCursorWidth(w)`, `none` models no call. -/
def cursorBlockWidthUpdated (cursorWidth p_width : Int) : Option Int :=
  if p_width ≠ cursorWidth ∧ p_width > VIRTUAL_CURSOR_BLOCK_WIDTH
  then some p_width
  else none

/-- The slice of state `updateLineNumberAreaMargin` / `updateLineNumberArea`
touch: the numbering mode, the viewport's left margin, the line-number area's
visibility, and the width `m_lineNumberArea->calculateWidth()` would report. -/
structure GutterState where
  m_lineNumberType : LineNumberType
  viewportMarginLeft : Int
  areaVisible : Bool
  calculatedWidth : Int
deriving DecidableEq, Repr

/-- `VTextEdit::updateLineNumberAreaMargin`, lines 253-263: width is 0 in mode
None, else the gutter's calculated width; the viewport margin is set to it when
it differs. -/
def updateLineNumberAreaMargin (s : GutterState) : GutterState :=
  let width : Int :=
    if s.m_lineNumberType = LineNumberType.None then 0 else s.calculatedWidth
  if width ≠ s.viewportMarginLeft then { s with viewportMarginLeft := width } else s

/-- `VTextEdit::updateLineNumberArea`, lines 265-278: in a numbering mode, show
the area (updating the margin first when it was hidden); in mode None, hide it
(updating the margin) when it was visible. -/
def updateLineNumberArea (s : GutterState) : GutterState :=
  if s.m_lineNumberType ≠ LineNumberType.None then
    if ¬s.areaVisible then
      { updateLineNumberAreaMargin s with areaVisible := true }
    else s
  else if s.areaVisible then
    { updateLineNumberAreaMargin s with areaVisible := false }
  else s

/-- A visible Normal block of unit height. -/
def normalBlk : TextBlock := ⟨BlockState.Normal, true, 1⟩

/-- A visible CodeBlockStart block of unit height. -/
def startBlk : TextBlock := ⟨BlockState.CodeBlockStart, true, 1⟩

/-- A visible CodeBlock block of unit height. -/
def cbBlk : TextBlock := ⟨BlockState.CodeBlock, true, 1⟩

/-- A visible CodeBlockEnd block of unit height. -/
def endBlk : TextBlock := ⟨BlockState.CodeBlockEnd, true, 1⟩

/-- A document of `p` Normal blocks, a code region
`[CodeBlockStart, CodeBlock × k, CodeBlockEnd]`, and `q` Normal blocks, all
visible and of unit height. -/
def codeRegionDoc (p k q : Nat) : List TextBlock :=
  List.replicate p normalBlk ++
    startBlk :: (List.replicate k cbBlk ++ endBlk :: List.replicate q normalBlk)

/-- One paint step over a `CodeBlockStart` block: nothing painted, counter
reset to 1. -/
lemma paintCBFrom_start (et eb : Int) (revB bs : List TextBlock) (top number : Int)
    (h : ¬eb < top) :
    paintCBFrom et eb revB (startBlk :: bs) top number =
      paintCBFrom et eb (startBlk :: revB) bs (top + 1) 1 := by
  simp [paintCBFrom, startBlk, h]

/-- One paint step over a `CodeBlockEnd` block: nothing painted, counter reset
to 0. -/
lemma paintCBFrom_end (et eb : Int) (revB bs : List TextBlock) (top number : Int)
    (h : ¬eb < top) :
    paintCBFrom et eb revB (endBlk :: bs) top number =
      paintCBFrom et eb (endBlk :: revB) bs (top + 1) 0 := by
  simp [paintCBFrom, endBlk, h]

/-- One paint step over a `Normal` block: nothing painted, counter kept. -/
lemma paintCBFrom_normal (et eb : Int) (revB bs : List TextBlock) (top number : Int)
    (h : ¬eb < top) :
    paintCBFrom et eb revB (normalBlk :: bs) top number =
      paintCBFrom et eb (normalBlk :: revB) bs (top + 1) number := by
  simp [paintCBFrom, normalBlk, h]

/-- One paint step over a `CodeBlock` block with a nonzero running counter:
the counter is painted and incremented. -/
lemma paintCBFrom_cb (et eb : Int) (revB bs : List TextBlock) (top number : Int)
    (h : ¬eb < top) (hn : number ≠ 0) (ht : et ≤ top + 1) :
    paintCBFrom et eb revB (cbBlk :: bs) top number =
      (revB.length, number) :: paintCBFrom et eb (cbBlk :: revB) bs (top + 1) (number + 1) := by
  simp [paintCBFrom, cbBlk, h, hn, ht]

/-- One paint step over a `CodeBlock` block with a zero running counter: the
backward scan determines the painted number. -/
lemma paintCBFrom_cb_scan (et eb : Int) (revB bs : List TextBlock) (top : Int) (d : Nat)
    (h : ¬eb < top) (ht : et ≤ top + 1) (hd : distToStart revB = some d) :
    paintCBFrom et eb revB (cbBlk :: bs) top 0 =
      (revB.length, (d : Int)) :: paintCBFrom et eb (cbBlk :: revB) bs (top + 1) (d + 1) := by
  simp [paintCBFrom, cbBlk, h, ht, hd]

/-- One paint step over a `CodeBlock` block with a zero running counter and a
failed backward scan: the number 0 is painted. -/
lemma paintCBFrom_cb_noscan (et eb : Int) (revB bs : List TextBlock) (top : Int)
    (h : ¬eb < top) (ht : et ≤ top + 1) (hd : distToStart revB = none) :
    paintCBFrom et eb revB (cbBlk :: bs) top 0 =
      (revB.length, 0) :: paintCBFrom et eb (cbBlk :: revB) bs (top + 1) 1 := by
  simp [paintCBFrom, cbBlk, h, ht, hd]

/-- A run of blocks none of which is tagged `CodeBlock` paints nothing,
whatever the geometry and counter. -/
lemma paintCBFrom_noCB (et eb : Int) :
    ∀ (rest revB : List TextBlock) (top number : Int),
      (∀ b ∈ rest, b.userState ≠ BlockState.CodeBlock) →
      paintCBFrom et eb revB rest top number = [] := by
  intro rest
  induction rest with
  | nil => intro revB top number _; simp [paintCBFrom]
  | cons b bs ih =>
    intro revB top number hrest
    by_cases h : eb < top
    · simp [paintCBFrom, h]
    · have hb : b.userState ≠ BlockState.CodeBlock := hrest b (List.mem_cons_self b bs)
      have hbs : ∀ b ∈ bs, b.userState ≠ BlockState.CodeBlock :=
        fun x hx => hrest x (List.mem_cons_of_mem b hx)
      have hcond : ¬(b.userState = BlockState.CodeBlock ∧ b.isVisible = true ∧
          et ≤ top + b.height) := fun hc => hb hc.1
      simp only [paintCBFrom, if_neg h, if_neg hcond, if_neg hb, List.nil_append]
      exact ih _ _ _ hbs

/-- A run of `k` CodeBlock blocks entered with a nonzero counter paints the
counter values `number, number+1, …` at consecutive block numbers. -/
lemma paintCBFrom_cbrun (et eb : Int) :
    ∀ (k : Nat) (revB rest2 : List TextBlock) (top number : Int),
      1 ≤ number → et ≤ top + 1 → top + k ≤ eb + 1 →
      paintCBFrom et eb revB (List.replicate k cbBlk ++ rest2) top number =
        (List.range k).map (fun t => (revB.length + t, number + t)) ++
          paintCBFrom et eb (List.replicate k cbBlk ++ revB) rest2 (top + k) (number + k) := by
  intro k
  induction k with
  | zero => intro revB rest2 top number _ _ _; simp
  | succ k ih =>
    intro revB rest2 top number hnum het heb
    have hlt : ¬eb < top := by
      have : (0 : Int) ≤ k := Int.natCast_nonneg k
      push_cast at heb
      omega
    have hne : number ≠ 0 := by omega
    rw [List.replicate_succ, List.cons_append,
        paintCBFrom_cb et eb revB _ top number hlt hne het]
    rw [ih (cbBlk :: revB) rest2 (top + 1) (number + 1) (by omega) (by omega)
        (by push_cast at heb ⊢; omega)]
    rw [List.range_succ_eq_map]
    simp only [List.map_cons, List.map_map, List.cons_append, List.length_cons,
      Function.comp, Nat.succ_eq_add_one, Nat.cast_zero, Nat.add_zero, add_zero]
    congr 1
    congr 1
    · refine List.map_congr_left fun t _ => ?_
      simp only [Function.comp_apply, Prod.mk.injEq, Nat.succ_eq_add_one]
      refine ⟨by omega, by push_cast; ring⟩
    · have hL : List.replicate k cbBlk ++ (cbBlk :: revB) =
          List.replicate (k + 1) cbBlk ++ revB := by
        rw [List.replicate_succ', List.append_assoc, List.singleton_append]
      rw [hL]
      push_cast
      ring_nf
      rw [Nat.add_comm 1 k, List.replicate_succ, List.cons_append]
/-- The backward scan finds nothing when no block is tagged CodeBlockStart. -/
lemma distToStart_eq_none : ∀ (xs : List TextBlock),
    (∀ x ∈ xs, x.userState ≠ BlockState.CodeBlockStart) → distToStart xs = none := by
  intro xs
  induction xs with
  | nil => intro _; rfl
  | cons b bs ih =>
    intro h
    have hb := h b (List.mem_cons_self b bs)
    rw [distToStart, if_neg hb, ih (fun x hx => h x (List.mem_cons_of_mem b hx))]
    rfl

/-- The backward scan over `xs ++ startBlk :: ys` with no CodeBlockStart in
`xs` finds the start at distance `xs.length + 1`. -/
lemma distToStart_append_start : ∀ (xs ys : List TextBlock),
    (∀ x ∈ xs, x.userState ≠ BlockState.CodeBlockStart) →
    distToStart (xs ++ startBlk :: ys) = some (xs.length + 1) := by
  intro xs ys
  induction xs with
  | nil => intro _; simp [distToStart, startBlk]
  | cons b bs ih =>
    intro h
    have hb := h b (List.mem_cons_self b bs)
    rw [List.cons_append, distToStart, if_neg hb,
        ih (fun x hx => h x (List.mem_cons_of_mem b hx))]
    simp [Option.map_some]

/-- Neither the CodeBlockEnd block nor trailing Normal blocks are tagged
CodeBlock. -/
lemma noCB_end_tail (q : Nat) :
    ∀ b ∈ endBlk :: List.replicate q normalBlk, b.userState ≠ BlockState.CodeBlock := by
  intro b hb
  rcases List.mem_cons.mp hb with h | h
  · subst h; simp [endBlk]
  · rw [List.eq_of_mem_replicate h]; simp [normalBlk]

/-- C1: in CodeBlockLocal numbering mode, a block sequence containing a code
region `[CodeBlockStart, CodeBlock × k, CodeBlockEnd]`, painted starting from
the (visible) CodeBlockStart block, prints the numbers 1..k on the k
CodeBlock-tagged blocks in order, and prints nothing for the CodeBlockStart
block, the CodeBlockEnd block, or any block outside the region. -/
theorem codeBlockLocal_region_numbers (p k q : Nat) (eventBtm : Int)
    (hk : (k : Int) ≤ eventBtm) :
    paintCodeBlockMode (codeRegionDoc p k q) p 0 0 eventBtm =
      (List.range k).map (fun t => (p + 1 + t, (1 : Int) + t)) := by
  have hk0 : (0 : Int) ≤ k := Int.natCast_nonneg k
  unfold paintCodeBlockMode codeRegionDoc
  rw [List.take_left' (by simp), List.drop_left' (by simp), List.reverse_replicate]
  rw [paintCBFrom_start 0 eventBtm _ _ 0 0 (by omega)]
  simp only [zero_add]
  rw [paintCBFrom_cbrun 0 eventBtm k (startBlk :: List.replicate p normalBlk) _ 1 1
      le_rfl (by omega) (by omega)]
  rw [paintCBFrom_noCB 0 eventBtm _ _ _ _ (noCB_end_tail q)]
  simp

/-- Witness for C1 at `p = 1`, `k = 3`, `q = 1`, `eventBtm = 10`. -/
theorem codeBlockLocal_region_numbers_witness :
    ((3 : Int) ≤ 10) ∧
      paintCodeBlockMode (codeRegionDoc 1 3 1) 1 0 0 10 =
        (List.range 3).map (fun t : Nat => (1 + 1 + t, (1 : Int) + t)) :=
  ⟨by decide, codeBlockLocal_region_numbers 1 3 1 10 (by decide)⟩

/-- Painting that begins at the `(m+1)`-th CodeBlock block of a region (its
start above the visible span) recovers the offset `m+1` through the backward
scan and paints `m+1, …, k` on the remaining CodeBlock blocks. -/
lemma paintCB_midRegion (p k q m : Nat) (eventBtm : Int) (hm : m < k)
    (hk : (k : Int) ≤ eventBtm) :
    paintCodeBlockMode (codeRegionDoc p k q) (p + 1 + m) 0 0 eventBtm =
      (List.range (k - m)).map (fun t => (p + 1 + m + t, (m : Int) + 1 + t)) := by
  have hk0 : (0 : Int) ≤ k := Int.natCast_nonneg k
  have hmle : m ≤ k := le_of_lt hm
  have hdoc : codeRegionDoc p k q =
      (List.replicate p normalBlk ++ startBlk :: List.replicate m cbBlk) ++
        (List.replicate (k - m) cbBlk ++ endBlk :: List.replicate q normalBlk) := by
    unfold codeRegionDoc
    rw [List.append_assoc, List.cons_append, ← List.append_assoc (List.replicate m cbBlk),
        ← List.replicate_add, Nat.add_sub_cancel' hmle]
  have hlen : (List.replicate p normalBlk ++ startBlk :: List.replicate m cbBlk).length
      = p + 1 + m := by simp; omega
  unfold paintCodeBlockMode
  rw [hdoc, List.take_left' hlen, List.drop_left' hlen]
  have hrev : (List.replicate p normalBlk ++ startBlk :: List.replicate m cbBlk).reverse =
      List.replicate m cbBlk ++ startBlk :: List.replicate p normalBlk := by
    rw [List.reverse_append, List.reverse_cons, List.reverse_replicate,
        List.reverse_replicate, List.append_assoc, List.singleton_append]
  rw [hrev]
  have hkm : k - m = (k - m - 1) + 1 := by omega
  rw [hkm, List.replicate_succ, List.cons_append]
  have hscan : distToStart (List.replicate m cbBlk ++ startBlk :: List.replicate p normalBlk)
      = some (m + 1) := by
    have := distToStart_append_start (List.replicate m cbBlk)
        (List.replicate p normalBlk)
        (fun x hx => by rw [List.eq_of_mem_replicate hx]; simp [cbBlk])
    simpa using this
  rw [paintCBFrom_cb_scan 0 eventBtm _ _ 0 (m + 1) (by omega) (by omega) hscan]
  simp only [zero_add]
  rw [paintCBFrom_cbrun 0 eventBtm (k - m - 1)
      (cbBlk :: (List.replicate m cbBlk ++ startBlk :: List.replicate p normalBlk)) _ 1
      (((m + 1 : Nat) : Int) + 1) (by omega) (by omega) (by omega)]
  rw [paintCBFrom_noCB 0 eventBtm _ _ _ _ (noCB_end_tail q)]
  rw [List.range_succ_eq_map]
  simp only [List.map_cons, List.map_map, List.append_nil, Function.comp,
    Nat.succ_eq_add_one, Nat.cast_zero, Nat.add_zero, add_zero, List.length_cons,
    List.length_append, List.length_replicate]
  congr 1
  · simp only [Prod.mk.injEq]
    exact ⟨by omega, by push_cast; ring⟩
  · refine List.map_congr_left fun t _ => ?_
    simp only [Function.comp_apply, Prod.mk.injEq, Nat.succ_eq_add_one]
    exact ⟨by omega, by push_cast; ring⟩

/-- A CodeBlock block with no CodeBlockStart anywhere before it: the backward
scan fails, the counter stays 0, and the number 0 is painted for it. -/
lemma paintCB_orphanZero (p : Nat) (eventBtm : Int) (h0 : 0 ≤ eventBtm)
    (hpre : ∀ x ∈ List.replicate p normalBlk, x.userState ≠ BlockState.CodeBlockStart) :
    paintCodeBlockMode (List.replicate p normalBlk ++ [cbBlk]) p 0 0 eventBtm =
      [(p, 0)] := by
  unfold paintCodeBlockMode
  rw [List.take_left' (by simp), List.drop_left' (by simp), List.reverse_replicate]
  have hscan : distToStart (List.replicate p normalBlk) = none :=
    distToStart_eq_none _ hpre
  rw [paintCBFrom_cb_noscan 0 eventBtm _ _ 0 (by omega) (by omega) hscan]
  simp [paintCBFrom]

/-- C2 counterexample: the claim says that when no CodeBlockStart exists
before a CodeBlock-tagged block, no number is painted for it. On the
single-block document `[CodeBlock]` the paint loop in fact draws the digit 0
for that block: the painted list is `[(0, 0)]`, not empty. -/
theorem codeBlockLocal_no_start_paints_zero :
    paintCodeBlockMode [cbBlk] 0 0 0 10 = [(0, 0)] ∧
      paintCodeBlockMode [cbBlk] 0 0 0 10 ≠ [] := by
  constructor
  · decide
  · decide

/-- C2 (amended): in CodeBlockLocal mode, painting that begins at the
`(m+1)`-th CodeBlock block of a region whose CodeBlockStart lies above the
visible span scans backward to that start and paints the correct in-region
offsets `m+1, …, k` on the remaining CodeBlock blocks; when no CodeBlockStart
exists before a CodeBlock block the counter is left at 0 and the digit 0 is
painted for that block (rather than nothing), the paint completing without
fault. -/
theorem codeBlockLocal_backward_scan (p k q m : Nat) (eventBtm : Int)
    (hm : m < k) (hk : (k : Int) ≤ eventBtm) :
    paintCodeBlockMode (codeRegionDoc p k q) (p + 1 + m) 0 0 eventBtm =
      (List.range (k - m)).map (fun t => (p + 1 + m + t, (m : Int) + 1 + t)) ∧
    paintCodeBlockMode (List.replicate p normalBlk ++ [cbBlk]) p 0 0 eventBtm =
      [(p, 0)] := by
  have hk0 : (0 : Int) ≤ k := Int.natCast_nonneg k
  refine ⟨paintCB_midRegion p k q m eventBtm hm hk, ?_⟩
  exact paintCB_orphanZero p eventBtm (by omega)
    (fun x hx => by rw [List.eq_of_mem_replicate hx]; simp [normalBlk])

/-- Witness for C2 at `p = 1`, `k = 3`, `q = 1`, `m = 1`, `eventBtm = 10`. -/
theorem codeBlockLocal_backward_scan_witness :
    (1 < 3) ∧ ((3 : Int) ≤ 10) ∧
      (paintCodeBlockMode (codeRegionDoc 1 3 1) (1 + 1 + 1) 0 0 10 =
          (List.range (3 - 1)).map (fun t : Nat => (1 + 1 + 1 + t, ((1 : Nat) : Int) + 1 + t)) ∧
        paintCodeBlockMode (List.replicate 1 normalBlk ++ [cbBlk]) 1 0 0 10 = [(1, 0)]) :=
  ⟨by decide, by decide, codeBlockLocal_backward_scan 1 3 1 1 10 (by decide) (by decide)⟩

/-- Every entry painted by the Relative-mode loop: the caret's block prints
its absolute 1-based number in bold, every other block prints the absolute
distance to the caret block, not bold. -/
lemma paintAbsRelFrom_rel_mem (cur et eb : Int) :
    ∀ (rest : List TextBlock) (bn top : Int) (e : Int × Int × Bool),
      e ∈ paintAbsRelFrom LineNumberType.Relative cur et eb bn rest top →
      (e.1 = cur → e.2.1 = e.1 + 1 ∧ e.2.2 = true) ∧
      (e.1 ≠ cur → e.2.1 = |e.1 - cur| ∧ e.2.2 = false) := by
  intro rest
  induction rest with
  | nil => intro bn top e he; simp [paintAbsRelFrom] at he
  | cons b bs ih =>
    intro bn top e he
    by_cases h : eb < top
    · simp [paintAbsRelFrom, if_pos h] at he
    · simp only [paintAbsRelFrom, if_neg h] at he
      rcases List.mem_append.mp he with hhead | htail
      · by_cases hv : b.isVisible = true ∧ et ≤ top + b.height
        · rw [if_pos hv, if_pos trivial] at hhead
          by_cases hd : bn - cur = 0
          · rw [if_pos hd] at hhead
            simp only [List.mem_singleton] at hhead
            subst hhead
            refine ⟨fun _ => ⟨rfl, rfl⟩, fun hne => ?_⟩
            exact absurd (show bn = cur by omega) hne
          · rw [if_neg hd] at hhead
            by_cases hlt : bn - cur < 0
            · rw [if_pos hlt] at hhead
              simp only [List.mem_singleton] at hhead
              subst hhead
              refine ⟨fun hcur => ?_, fun _ => ⟨(abs_of_neg hlt).symm, rfl⟩⟩
              exact absurd (show bn - cur = 0 from by
                have hbc : bn = cur := hcur; omega) hd
            · rw [if_neg hlt] at hhead
              simp only [List.mem_singleton] at hhead
              subst hhead
              have hpos : (0 : Int) < bn - cur := by omega
              refine ⟨fun hcur => ?_, fun _ => ⟨(abs_of_pos hpos).symm, rfl⟩⟩
              exact absurd (show bn - cur = 0 from by
                have hbc : bn = cur := hcur; omega) hd
        · rw [if_neg hv] at hhead
          simp at hhead
      · exact ih _ _ e htail

/-- Every entry painted by the Absolute-mode loop: the printed number is the
block number plus 1, bold exactly for the caret's block. -/
lemma paintAbsRelFrom_abs_mem (cur et eb : Int) :
    ∀ (rest : List TextBlock) (bn top : Int) (e : Int × Int × Bool),
      e ∈ paintAbsRelFrom LineNumberType.Absolute cur et eb bn rest top →
      e.2.1 = e.1 + 1 ∧ (e.2.2 = true ↔ e.1 = cur) := by
  intro rest
  induction rest with
  | nil => intro bn top e he; simp [paintAbsRelFrom] at he
  | cons b bs ih =>
    intro bn top e he
    by_cases h : eb < top
    · simp [paintAbsRelFrom, if_pos h] at he
    · simp only [paintAbsRelFrom, if_neg h] at he
      rcases List.mem_append.mp he with hhead | htail
      · by_cases hv : b.isVisible = true ∧ et ≤ top + b.height
        · rw [if_pos hv] at hhead
          rw [if_neg (by decide : ¬(LineNumberType.Absolute = LineNumberType.Relative))] at hhead
          by_cases hc : bn = cur
          · rw [if_pos hc] at hhead
            simp only [List.mem_singleton] at hhead
            subst hhead
            exact ⟨rfl, ⟨fun _ => hc, fun _ => rfl⟩⟩
          · rw [if_neg hc] at hhead
            simp only [List.mem_singleton] at hhead
            subst hhead
            exact ⟨rfl, ⟨fun htr => (Bool.false_ne_true htr).elim,
              fun hcur => (hc hcur).elim⟩⟩
        · rw [if_neg hv] at hhead
          simp at hhead
      · exact ih _ _ e htail

/-- C3: in Relative numbering mode, every painted entry at the caret's block
number prints the absolute 1-based number (blockNumber + 1) in bold, and every
painted entry at any other block prints the absolute difference
|blockNumber − caretBlockNumber|, not in bold. -/
theorem relative_mode_numbers (cur : Int) (blocks : List TextBlock)
    (firstVisible : Nat) (top eventTop eventBtm : Int) (e : Int × Int × Bool)
    (he : e ∈ paintAbsRelMode LineNumberType.Relative cur blocks firstVisible
      top eventTop eventBtm) :
    (e.1 = cur → e.2.1 = e.1 + 1 ∧ e.2.2 = true) ∧
    (e.1 ≠ cur → e.2.1 = |e.1 - cur| ∧ e.2.2 = false) := by
  unfold paintAbsRelMode at he
  exact paintAbsRelFrom_rel_mem cur eventTop eventBtm _ _ _ e he

/-- Witness for C3: on three visible unit blocks with the caret on block 1,
the entry (1, 2, bold) is painted and satisfies the property. -/
theorem relative_mode_numbers_witness :
    (((1 : Int), (2 : Int), true) ∈
        paintAbsRelMode LineNumberType.Relative 1 [normalBlk, normalBlk, normalBlk]
          0 0 0 10) ∧
      ((((1 : Int), (2 : Int), true).1 = 1 →
          ((1 : Int), (2 : Int), true).2.1 = ((1 : Int), (2 : Int), true).1 + 1 ∧
          ((1 : Int), (2 : Int), true).2.2 = true) ∧
        (((1 : Int), (2 : Int), true).1 ≠ 1 →
          ((1 : Int), (2 : Int), true).2.1 = |((1 : Int), (2 : Int), true).1 - 1| ∧
          ((1 : Int), (2 : Int), true).2.2 = false)) :=
  ⟨by decide, relative_mode_numbers 1 [normalBlk, normalBlk, normalBlk] 0 0 0 10
    ((1 : Int), (2 : Int), true) (by decide)⟩

/-- C7: in Absolute numbering mode, every painted entry prints
blockNumber + 1, rendered bold exactly when the block number equals the
caret's block number. -/
theorem absolute_mode_numbers (cur : Int) (blocks : List TextBlock)
    (firstVisible : Nat) (top eventTop eventBtm : Int) (e : Int × Int × Bool)
    (he : e ∈ paintAbsRelMode LineNumberType.Absolute cur blocks firstVisible
      top eventTop eventBtm) :
    e.2.1 = e.1 + 1 ∧ (e.2.2 = true ↔ e.1 = cur) := by
  unfold paintAbsRelMode at he
  exact paintAbsRelFrom_abs_mem cur eventTop eventBtm _ _ _ e he

/-- Witness for C7: on two visible unit blocks with the caret on block 1, the
entry (1, 2, bold) is painted and satisfies the property. -/
theorem absolute_mode_numbers_witness :
    (((1 : Int), (2 : Int), true) ∈
        paintAbsRelMode LineNumberType.Absolute 1 [normalBlk, normalBlk] 0 0 0 10) ∧
      (((1 : Int), (2 : Int), true).2.1 = ((1 : Int), (2 : Int), true).1 + 1 ∧
        (((1 : Int), (2 : Int), true).2.2 = true ↔ ((1 : Int), (2 : Int), true).1 = 1)) :=
  ⟨by decide, absolute_mode_numbers 1 [normalBlk, normalBlk] 0 0 0 10
    ((1 : Int), (2 : Int), true) (by decide)⟩

/-- Filtering a name out of the cache leaves no entry with that name. -/
lemma contains_filter_ne (c : ImageCache) (name : String) :
    (c.filter (fun x => ¬(x.1 = name))).any (fun x => x.1 = name) = false := by
  rw [List.any_eq_false]
  intro x hx
  have hmem := List.of_mem_filter hx
  simp at hmem ⊢
  exact hmem

/-- C4 counterexample: from the constructed state (block images disabled),
`addImage "x" img` is a no-op, so `containsImage "x"` stays false — the claim
fails for prior states in which `m_blockImageEnabled` is false. -/
theorem addImage_disabled_not_contains :
    (VTextEdit.init.addImage "x" ⟨⟨2, 3⟩⟩).containsImage "x" = false := by
  decide

/-- C4 (amended): when block images are enabled, after `addImage name img`
the cache contains `name` and `imageSize name` is `img`'s size; after
`removeImage name` (in any state) the cache does not contain `name`. -/
theorem image_cache_add_remove (e : VTextEdit) (name : String) (img : QPixmap) :
    (e.m_blockImageEnabled = true →
      (e.addImage name img).containsImage name = true ∧
      (e.addImage name img).imageSize name = img.size) ∧
    (e.removeImage name).containsImage name = false := by
  constructor
  · intro hen
    unfold VTextEdit.addImage
    rw [if_pos hen]
    constructor
    · unfold VTextEdit.containsImage ImageCache.contains ImageCache.addImage
      simp
    · unfold VTextEdit.imageSize ImageCache.findImage ImageCache.addImage
      simp [List.find?_cons]
  · unfold VTextEdit.removeImage VTextEdit.containsImage ImageCache.contains
      ImageCache.removeImage
    exact contains_filter_ne e.m_imageMgr name

/-- Witness for C4 from the enabled state. -/
theorem image_cache_add_remove_witness :
    ((VTextEdit.init.setBlockImageEnabled true).m_blockImageEnabled = true) ∧
      (((VTextEdit.init.setBlockImageEnabled true).addImage "x"
          ⟨⟨2, 3⟩⟩).containsImage "x" = true ∧
        ((VTextEdit.init.setBlockImageEnabled true).addImage "x"
          ⟨⟨2, 3⟩⟩).imageSize "x" = (⟨⟨2, 3⟩⟩ : QPixmap).size) ∧
      ((VTextEdit.init.setBlockImageEnabled true).removeImage "x").containsImage "x"
        = false :=
  ⟨by decide,
   (image_cache_add_remove (VTextEdit.init.setBlockImageEnabled true) "x"
      ⟨⟨2, 3⟩⟩).1 (by decide),
   (image_cache_add_remove (VTextEdit.init.setBlockImageEnabled true) "x"
      ⟨⟨2, 3⟩⟩).2⟩

/-- In any reachable state with block images disabled the cache is empty:
`addImage` is gated on the flag and disabling clears the cache. -/
lemma reachable_disabled_empty {e : VTextEdit} (h : Reachable e) :
    e.m_blockImageEnabled = false → e.m_imageMgr = [] := by
  induction h with
  | init => intro _; rfl
  | @addImage e name img hr ih =>
    intro hdis
    by_cases hb : e.m_blockImageEnabled = true
    · unfold VTextEdit.addImage at hdis
      rw [if_pos hb] at hdis
      simp [hb] at hdis
    · unfold VTextEdit.addImage at hdis ⊢
      rw [if_neg hb] at hdis ⊢
      exact ih hdis
  | @removeImage e name hr ih =>
    intro hdis
    unfold VTextEdit.removeImage at hdis ⊢
    simp only at hdis
    have hmgr := ih hdis
    simp [ImageCache.removeImage, hmgr]
  | @clearBlockImages e hr ih => intro _; rfl
  | @setBlockImageEnabled e b hr ih =>
    intro hdis
    unfold VTextEdit.setBlockImageEnabled at hdis ⊢
    by_cases hsame : e.m_blockImageEnabled = b
    · rw [if_pos hsame] at hdis ⊢
      exact ih hdis
    · rw [if_neg hsame] at hdis ⊢
      cases b with
      | false => rfl
      | true => simp at hdis
  | @relayout e hr ih =>
    intro hdis
    unfold VTextEdit.relayout at hdis ⊢
    simp only at hdis ⊢
    exact ih hdis

/-- C9: whenever `m_blockImageEnabled` is false (as after construction),
`addImage` leaves the whole state unchanged for every name and image; and in
every reachable disabled state the cache is empty, so entries can only be
inserted after `setBlockImageEnabled(true)`. -/
theorem addImage_disabled_noop (e : VTextEdit) (name : String) (img : QPixmap) :
    (e.m_blockImageEnabled = false → e.addImage name img = e) ∧
    (Reachable e → e.m_blockImageEnabled = false → e.m_imageMgr = []) := by
  constructor
  · intro hdis
    unfold VTextEdit.addImage
    rw [if_neg (by simp [hdis])]
  · exact fun hr hd => reachable_disabled_empty hr hd

/-- Witness for C9 at the constructed state. -/
theorem addImage_disabled_noop_witness :
    (VTextEdit.init.m_blockImageEnabled = false) ∧
      VTextEdit.init.addImage "x" ⟨⟨2, 3⟩⟩ = VTextEdit.init ∧
      VTextEdit.init.m_imageMgr = [] :=
  ⟨by decide,
   (addImage_disabled_noop VTextEdit.init "x" ⟨⟨2, 3⟩⟩).1 (by decide),
   (addImage_disabled_noop VTextEdit.init "x" ⟨⟨2, 3⟩⟩).2 Reachable.init (by decide)⟩

/-- C10: for every name absent from the cache, `imageSize` returns the
default-constructed (null) `QSize` rather than failing; the query is a pure
function of the state (the C++ method is const), so the cache is unchanged. -/
theorem imageSize_missing_null (e : VTextEdit) (name : String)
    (h : e.containsImage name = false) : e.imageSize name = QSize.null := by
  unfold VTextEdit.containsImage ImageCache.contains at h
  rw [List.any_eq_false] at h
  have hf : e.m_imageMgr.find? (fun x => x.1 = name) = none :=
    List.find?_eq_none.mpr h
  unfold VTextEdit.imageSize ImageCache.findImage
  rw [hf]
  rfl

/-- Witness for C10 at the constructed (empty-cache) state. -/
theorem imageSize_missing_null_witness :
    (VTextEdit.init.containsImage "x" = false) ∧
      VTextEdit.init.imageSize "x" = QSize.null :=
  ⟨by decide, imageSize_missing_null VTextEdit.init "x" (by decide)⟩

/-- C5: for every reachable state, `setBlockImageEnabled(false)` leaves the
image cache empty afterwards regardless of its prior contents, and when the
flag was previously true it performs the cache clear together with a
full-document relayout (one `relayout()` call) before returning. -/
theorem setBlockImageEnabled_false_clears (e : VTextEdit) (h : Reachable e) :
    (e.setBlockImageEnabled false).m_imageMgr = [] ∧
    (e.m_blockImageEnabled = true →
      (e.setBlockImageEnabled false).m_imageMgr = [] ∧
      (e.setBlockImageEnabled false).relayoutCount = e.relayoutCount + 1) := by
  constructor
  · by_cases hb : e.m_blockImageEnabled = true
    · unfold VTextEdit.setBlockImageEnabled
      rw [if_neg (by simp [hb])]
      rfl
    · have hb' : e.m_blockImageEnabled = false := by
        cases hB : e.m_blockImageEnabled
        · rfl
        · exact absurd hB hb
      unfold VTextEdit.setBlockImageEnabled
      rw [if_pos hb']
      exact reachable_disabled_empty h hb'
  · intro hb
    unfold VTextEdit.setBlockImageEnabled
    rw [if_neg (by simp [hb])]
    exact ⟨rfl, rfl⟩

/-- Witness for C5 from the enabled reachable state. -/
theorem setBlockImageEnabled_false_clears_witness :
    ((VTextEdit.init.setBlockImageEnabled true).m_blockImageEnabled = true) ∧
      ((VTextEdit.init.setBlockImageEnabled true).setBlockImageEnabled
        false).m_imageMgr = [] ∧
      ((VTextEdit.init.setBlockImageEnabled true).setBlockImageEnabled
          false).relayoutCount =
        (VTextEdit.init.setBlockImageEnabled true).relayoutCount + 1 :=
  ⟨by decide,
   (setBlockImageEnabled_false_clears (VTextEdit.init.setBlockImageEnabled true)
      (Reachable.setBlockImageEnabled true Reachable.init)).1,
   ((setBlockImageEnabled_false_clears (VTextEdit.init.setBlockImageEnabled true)
      (Reachable.setBlockImageEnabled true Reachable.init)).2 (by decide)).2⟩

/-- C6: on a `cursorBlockWidthUpdated` notification carrying width `w`, the
handler applies `w` (calls `setCursorWidth w`) exactly when `w` differs from
the current `cursorWidth()` and strictly exceeds the 8-unit floor; a width at
or below the floor is never applied. -/
theorem cursor_width_floor (cursorWidth p_width : Int) :
    (cursorBlockWidthUpdated cursorWidth p_width = some p_width ↔
      (p_width ≠ cursorWidth ∧ VIRTUAL_CURSOR_BLOCK_WIDTH < p_width)) ∧
    (p_width ≤ VIRTUAL_CURSOR_BLOCK_WIDTH →
      cursorBlockWidthUpdated cursorWidth p_width = none) := by
  unfold cursorBlockWidthUpdated
  constructor
  · constructor
    · intro h
      by_cases hc : p_width ≠ cursorWidth ∧ p_width > VIRTUAL_CURSOR_BLOCK_WIDTH
      · exact ⟨hc.1, hc.2⟩
      · rw [if_neg hc] at h
        exact absurd h (by simp)
    · intro hc
      rw [if_pos ⟨hc.1, hc.2⟩]
  · intro hle
    rw [if_neg]
    intro hc
    exact absurd hc.2 (by omega)

/-- Witness for C6: width 9 against current width 1 is applied; the floor
case is exercised through the iff at width 8. -/
theorem cursor_width_floor_witness :
    cursorBlockWidthUpdated 1 9 = some 9 ∧ cursorBlockWidthUpdated 1 8 = none :=
  ⟨(cursor_width_floor 1 9).1.mpr (by decide),
   (cursor_width_floor 1 8).2 (by decide)⟩

/-- After `updateLineNumberAreaMargin` the left viewport margin equals 0 in
mode None and the gutter's calculated width otherwise. -/
lemma updateLineNumberAreaMargin_margin (s : GutterState) :
    (updateLineNumberAreaMargin s).viewportMarginLeft =
      if s.m_lineNumberType = LineNumberType.None then 0 else s.calculatedWidth := by
  unfold updateLineNumberAreaMargin
  split_ifs <;> simp_all
  all_goals split_ifs <;> simp_all

/-- C8: when the line-number mode is None, updating hides the gutter area and
sets the reserved left margin to 0; when the mode is not None, the left margin
is set to the gutter's computed width, and updating shows the area. -/
theorem gutter_margin_mode (s : GutterState) :
    (s.m_lineNumberType = LineNumberType.None →
      (updateLineNumberAreaMargin s).viewportMarginLeft = 0) ∧
    (s.m_lineNumberType ≠ LineNumberType.None →
      (updateLineNumberAreaMargin s).viewportMarginLeft = s.calculatedWidth) ∧
    ((updateLineNumberArea s).areaVisible = true ↔
      s.m_lineNumberType ≠ LineNumberType.None) := by
  refine ⟨?_, ?_, ?_⟩
  · intro hnone
    rw [updateLineNumberAreaMargin_margin, if_pos hnone]
  · intro hne
    rw [updateLineNumberAreaMargin_margin, if_neg hne]
  · unfold updateLineNumberArea
    by_cases hm : s.m_lineNumberType ≠ LineNumberType.None
    · rw [if_pos hm]
      by_cases hv : s.areaVisible
      · rw [if_neg (by simp [hv])]
        simp [hv, hm]
      · rw [if_pos hv]
        simp [hm]
    · rw [if_neg hm]
      by_cases hv : s.areaVisible
      · rw [if_pos hv]
        simp [hm]
      · rw [if_neg hv]
        simp only [Bool.not_eq_true] at hv
        simp [hv, hm]

/-- Witness for C8 in mode None and in mode Absolute. -/
theorem gutter_margin_mode_witness :
    ((⟨LineNumberType.None, 5, true, 7⟩ : GutterState).m_lineNumberType =
        LineNumberType.None) ∧
      (updateLineNumberAreaMargin ⟨LineNumberType.None, 5, true, 7⟩).viewportMarginLeft
        = 0 ∧
      ((⟨LineNumberType.Absolute, 0, false, 7⟩ : GutterState).m_lineNumberType ≠
        LineNumberType.None) ∧
      (updateLineNumberAreaMargin
        ⟨LineNumberType.Absolute, 0, false, 7⟩).viewportMarginLeft = 7 ∧
      ((updateLineNumberArea ⟨LineNumberType.Absolute, 0, false, 7⟩).areaVisible = true ↔
        (⟨LineNumberType.Absolute, 0, false, 7⟩ : GutterState).m_lineNumberType ≠
          LineNumberType.None) :=
  ⟨by decide,
   (gutter_margin_mode ⟨LineNumberType.None, 5, true, 7⟩).1 (by decide),
   by decide,
   (gutter_margin_mode ⟨LineNumberType.Absolute, 0, false, 7⟩).2.1 (by decide),
   (gutter_margin_mode ⟨LineNumberType.Absolute, 0, false, 7⟩).2.2⟩

end VTextEditSpec
